import Mathlib

/-!
# Verification of the Plane orchestrator core

Shallow embedding of the parts of the Plane repository that the claims
touch: the controller's backend database layer
(`plane/src/database/backend.rs`), the drone's durable state store
(`plane/src/drone/state_store.rs`), the drone executor's startup
reconciliation (`plane/src/drone/executor.rs`), the plane2 key manager
(`plane2/src/drone/key_manager.rs`), and the proxy's token/path handling
(validated against `plane/plane-tests/tests/proxy.rs`).

The `BackendState` enum and its helpers (`status`, `as_int`,
`to_terminating`, `to_terminated`) and `BearerToken::is_static` live in
the `plane_common::types` module, which is not part of the sources here;
those definitions are modelled from the spec (ranks and variants of
spec sections 3 and 4.5) and cross-checked against the uses and tests
that are in the sources.
-/

namespace Plane

/-- Modelled from the spec (section 4.5 / common types, not in the given
sources): soft vs hard termination. -/
inductive TerminationKind
  | Soft
  | Hard
deriving DecidableEq, Repr

/-- Modelled from the spec (sections 4.5 and 4.6, and the uses in
`state_store.rs` tests): reasons a backend can be terminated. -/
inductive TerminationReason
  | Swept
  | External
  | KeyExpired
  | IdleTimeout
  | ExitSelf
  | ErrorStarting
deriving DecidableEq, Repr

/-- Modelled from the spec (section 3): the coarse status of a backend,
as stored in the `last_status` column. -/
inductive BackendStatus
  | Scheduled
  | Loading
  | Starting
  | Waiting
  | Ready
  | Terminating
  | HardTerminating
  | Terminated
deriving DecidableEq, Repr

/-- Modelled from the spec (section 4.5 rank function): `Scheduled=1,
Loading=10, Starting=20, Waiting=30, Ready=40, Terminating=50,
HardTerminating=60, Terminated=70`.  This is `BackendStatus::as_int`,
the value written to `last_status_number`. -/
def BackendStatus.as_int : BackendStatus → Int
  | .Scheduled => 1
  | .Loading => 10
  | .Starting => 20
  | .Waiting => 30
  | .Ready => 40
  | .Terminating => 50
  | .HardTerminating => 60
  | .Terminated => 70

/-- Modelled from the spec (section 3): the `BackendState` tagged union.
Addresses are abstracted as strings (the socket-address text). -/
inductive BackendState
  | Scheduled
  | Loading
  | Starting
  | Waiting
  | Ready (address : String)
  | Terminating (last_status : BackendStatus) (reason : TerminationReason)
  | HardTerminating (last_status : BackendStatus) (reason : TerminationReason)
  | Terminated (last_status : Option BackendStatus) (reason : Option TerminationReason)
      (exit_code : Option Int)
deriving DecidableEq, Repr

/-- Modelled from the spec: `BackendState::status`. -/
def BackendState.status : BackendState → BackendStatus
  | .Scheduled => .Scheduled
  | .Loading => .Loading
  | .Starting => .Starting
  | .Waiting => .Waiting
  | .Ready _ => .Ready
  | .Terminating _ _ => .Terminating
  | .HardTerminating _ _ => .HardTerminating
  | .Terminated _ _ _ => .Terminated

/-- Modelled from the spec: `BackendState::address`, `Some` exactly in
the `Ready` state. -/
def BackendState.address : BackendState → Option String
  | .Ready a => some a
  | _ => none

/-- Whether the state is the terminal `Terminated` variant (the Rust
`matches!(state, BackendState::Terminated { .. })` test). -/
def BackendState.isTerminated : BackendState → Bool
  | .Terminated _ _ _ => true
  | _ => false

/-- The reason carried by a terminating state, if any. -/
def BackendState.terminatingReason : BackendState → Option TerminationReason
  | .Terminating _ r => some r
  | .HardTerminating _ r => some r
  | _ => none

/-- Modelled from the spec (section 4.6) and the `state_store.rs` tests:
`BackendState::to_terminating(kind, reason)`.  A `Hard` kind produces the
`HardTerminating` state carrying the current status as `last_status`
(the tests assert `ready.to_hard_terminating(External) =
HardTerminating{last_status: Ready, reason: External}`). -/
def BackendState.to_terminating (s : BackendState) (kind : TerminationKind)
    (reason : TerminationReason) : BackendState :=
  match kind with
  | .Soft => .Terminating s.status reason
  | .Hard => .HardTerminating s.status reason

/-- Modelled from the spec: `BackendState::to_terminated(exit_code)`,
recording the previous status and any termination reason. -/
def BackendState.to_terminated (s : BackendState) (exit_code : Option Int) : BackendState :=
  .Terminated (some s.status) s.terminatingReason exit_code

/-! ## Proxy token handling (claim C6)

`BearerToken::is_static` and the proxy's upstream-path rewrite are not in
the given sources; they are modelled from the spec and validated against
the expectations of `plane-tests/tests/proxy.rs`
(`proxy_backend_accepts` and `proxy_static_token`). -/

/-- Prefix test on character lists, as used by `is_static`. -/
def charsLeadWith : List Char → List Char → Bool
  | [], _ => true
  | _ :: _, [] => false
  | a :: as, b :: bs => a == b && charsLeadWith as bs

/-- Modelled from the spec (section 3): a token is static iff it begins
with `s.` (stated on the character lists underlying the strings). -/
def is_static (token : String) : Bool :=
  charsLeadWith "s.".data token.data

/-- Modelled from the spec (sections 4.9 and 8, property 4): the proxy
rewrite of the path seen by the backend.  The incoming path is
`"/" ++ token ++ suffix`; a static token passes the original path
through, a non-static token has the token segment stripped. -/
def upstream_path (token : String) (suffix : String) : String :=
  if is_static token then "/" ++ token ++ suffix else suffix

/-! ## plane2 key manager (claim C4)

Embedding of `plane2/src/drone/key_manager.rs`.  The renewal task
`renew_key_loop(key, receiver)` is a loop whose body begins with
`receiver.changed().await`: with tokio watch-channel semantics the
initial value passed to `tokio::sync::watch::channel` counts as seen, so
the body runs once per value later delivered through
`KeyManager::receive_response` (which forwards a controller response
into the channel).  Each iteration then sleeps until `renew_at` if that
is still in the future and constructs a `RenewKeyRequest`, but the body
contains no send call, so the constructed request is dropped. -/

/-- The `AcquiredKey` of plane2 (key config abstracted to its name). -/
structure AcquiredKeyM where
  key : String
  token : Int
  renew_at : Int
deriving DecidableEq, Repr

/-- The `RenewKeyRequest` constructed by plane2's `renew_key_loop`. -/
structure RenewKeyRequestM where
  key : String
  token : Int
  local_time : Int
deriving DecidableEq, Repr

/-- One iteration of `renew_key_loop`'s body, as observed from outside:
which key value was read from the watch channel, whether the task slept
(`renew_at.duration_since(now)` is `Ok` iff `renew_at` is not in the
past), and the request the body constructs. -/
structure RenewIteration where
  observed : AcquiredKeyM
  slept : Bool
  built : RenewKeyRequestM
deriving DecidableEq, Repr

/-- The iterations `renew_key_loop` performs, given the local clock at
loop entry and the list of values successively delivered through the
watch channel by `receive_response`.  The body runs only after
`receiver.changed()` completes, i.e. once per delivered response; when
no response is ever delivered the loop performs no iteration. -/
def renew_key_loop_iterations (now : Int) (responses : List AcquiredKeyM) :
    List RenewIteration :=
  responses.map fun k =>
    { observed := k
      slept := decide (now ≤ k.renew_at)
      built :=
        { key := k.key
          token := k.token
          local_time := max now k.renew_at } }

/-- The requests `renew_key_loop` actually sends to the controller: the
loop body binds the constructed `RenewKeyRequest` to a variable and then
reaches the end of the body without sending it, so every iteration
contributes nothing. -/
def renew_key_loop_sent (now : Int) (responses : List AcquiredKeyM) :
    List RenewKeyRequestM :=
  (renew_key_loop_iterations now responses).foldl (fun acc _it => acc) []

/-! ## Drone state store (`plane/src/drone/state_store.rs`)

Two sqlite tables: `backend(id primary key, state)` upserted on every
transition, and `event(id autoincrement, backend_id, event, timestamp)`
appended on every transition.  `events` is kept in rowid (insertion)
order; `nextId` is the autoincrement counter. -/

/-- A row of the state store's `event` table. -/
structure EventRow where
  id : Int
  backend_id : String
  state : BackendState
  timestamp : Int
deriving DecidableEq, Repr

/-- The `BackendStateMessage` delivered to the installed listener. -/
structure BackendStateMessage where
  event_id : Int
  backend_id : String
  state : BackendState
  timestamp : Int
deriving DecidableEq, Repr

/-- The drone's durable state store.  `listenerInstalled` records
whether `register_listener` has installed a listener (the listener
itself is a callback; deliveries to it are returned explicitly by the
operations below). -/
structure StateStore where
  backend : List (String × BackendState)
  events : List EventRow
  nextId : Int
  listenerInstalled : Bool
deriving DecidableEq, Repr

/-- A fresh state store, as produced by `StateStore::new` on an empty
database (sqlite autoincrement ids start at 1). -/
def StateStore.empty : StateStore :=
  { backend := [], events := [], nextId := 1, listenerInstalled := false }

/-- The sqlite upsert of `register_event`: replace the `state` of an
existing `backend` row with the same id, or insert a new row. -/
def upsertBackend (l : List (String × BackendState)) (k : String) (v : BackendState) :
    List (String × BackendState) :=
  if l.any (fun kv => kv.1 == k) then
    l.map (fun kv => (kv.1, if kv.1 == k then v else kv.2))
  else
    l ++ [(k, v)]

/-- `StateStore::register_event`: upsert the backend row, append an
event row, and (after commit) deliver a `BackendStateMessage` carrying
`last_insert_rowid()` to the listener if one is installed.  Returns the
new store and the message delivered to the listener, if any. -/
def StateStore.register_event (s : StateStore) (backend_id : String)
    (state : BackendState) (timestamp : Int) :
    StateStore × Option BackendStateMessage :=
  let row : EventRow :=
    { id := s.nextId, backend_id := backend_id, state := state, timestamp := timestamp }
  let s' : StateStore :=
    { s with
      backend := upsertBackend s.backend backend_id state
      events := s.events ++ [row]
      nextId := s.nextId + 1 }
  let msg :=
    if s.listenerInstalled then
      some { event_id := row.id, backend_id := backend_id, state := state,
             timestamp := timestamp }
    else
      none
  (s', msg)

/-- Comparison used to order the `event` table by its `timestamp`
column. -/
def tsLe (a b : EventRow) : Prop :=
  a.timestamp ≤ b.timestamp

instance : DecidableRel tsLe := fun a b =>
  inferInstanceAs (Decidable (a.timestamp ≤ b.timestamp))

instance : IsTotal EventRow tsLe :=
  ⟨fun a b => Int.le_total a.timestamp b.timestamp⟩

instance : IsTrans EventRow tsLe :=
  ⟨fun _ _ _ hab hbc => le_trans hab hbc⟩

/-- `StateStore::unacked_events`: `select ... from "event" order by
timestamp asc`.  Rows are stored in insertion order and the sort is by
the `timestamp` column; ties keep insertion order (stable sort). -/
def StateStore.unacked_events (s : StateStore) : List EventRow :=
  s.events.insertionSort tsLe

/-- The `BackendStateMessage` built from an event row during replay. -/
def EventRow.toMessage (e : EventRow) : BackendStateMessage :=
  { event_id := e.id, backend_id := e.backend_id, state := e.state,
    timestamp := e.timestamp }

/-- `StateStore::register_listener`: replay every unacked event to the
new listener, then install it.  Returns the replayed messages (in the
order delivered) and the store with the listener installed. -/
def StateStore.register_listener (s : StateStore) :
    List BackendStateMessage × StateStore :=
  (s.unacked_events.map EventRow.toMessage, { s with listenerInstalled := true })

/-- `StateStore::ack_event`: delete the event row with the given id. -/
def StateStore.ack_event (s : StateStore) (event_id : Int) : StateStore :=
  { s with events := s.events.filter (fun e => !(e.id == event_id)) }

/-- `StateStore::active_backends`: all backend rows whose state is not
`Terminated`, in table order. -/
def StateStore.active_backends (s : StateStore) : List (String × BackendState) :=
  s.backend.filter (fun kv => !kv.2.isTerminated)

/-! ## Drone executor startup reconciliation (`plane/src/drone/executor.rs`)

`Executor::terminate_preexisting_backends` enumerates
`active_backends()`, and for each one: registers a
`to_terminating(Hard, KeyExpired)` event, calls
`runtime.terminate(&backend_id, true)` for up to 10 attempts (waiting on
an exponential backoff between failed attempts), and finally registers a
`to_terminated(None)` event built from the original state — whether or
not any attempt succeeded.

The Rust code runs one task per backend and joins them; the tasks touch
disjoint backend rows and only append to the event table, so the final
`backend` table and the per-backend event contents are
interleaving-independent.  The model composes the per-backend work
sequentially, in `active_backends()` order. -/

/-- A call the reconciliation makes into the runtime / backoff. -/
inductive RtCall
  | terminate (backend_id : String) (hard : Bool)
  | backoffWait
deriving DecidableEq, Repr

/-- The retry loop `for attempt in 1..=10`, over the list of remaining
attempt numbers.  `ok k` tells whether the runtime's `terminate` call
succeeds on attempt `k`.  Returns whether any attempt succeeded,
together with the calls made (a failed attempt is followed by a backoff
wait, as in the source). -/
def runAttempts (ok : Nat → Bool) (backend_id : String) :
    List Nat → Bool × List RtCall
  | [] => (false, [])
  | k :: rest =>
    if ok k then
      (true, [RtCall.terminate backend_id true])
    else
      let r := runAttempts ok backend_id rest
      (r.1, RtCall.terminate backend_id true :: RtCall.backoffWait :: r.2)

/-- The body of the per-backend reconciliation task: register the
hard-terminating event, run the retry loop, then register the
terminated event (note that both registered states are derived from the
original `state`, as in the source). -/
def terminateOne (ok : Nat → Bool) (s : StateStore) (backend_id : String)
    (state : BackendState) (now : Int) : StateStore × List RtCall :=
  let s1 := (s.register_event backend_id
    (state.to_terminating .Hard .KeyExpired) now).1
  let r := runAttempts ok backend_id (List.range' 1 10)
  let s2 := (s1.register_event backend_id (state.to_terminated none) now).1
  (s2, r.2)

/-- The fold underlying `terminate_preexisting_backends`: run the
per-backend task over a list of (backend id, state) pairs, threading
the store and accumulating the runtime calls. -/
def tpbFold (ok : String → Nat → Bool) (now : Int)
    (L : List (String × BackendState)) (acc : StateStore × List RtCall) :
    StateStore × List RtCall :=
  L.foldl
    (fun acc p =>
      let r := terminateOne (ok p.1) acc.1 p.1 p.2 now
      (r.1, acc.2 ++ r.2))
    acc

/-- `Executor::terminate_preexisting_backends`: fold the per-backend
task over the active backends of the initial store.  `ok b k` tells
whether `runtime.terminate(b, true)` succeeds on attempt `k`. -/
def terminate_preexisting_backends (ok : String → Nat → Bool) (s : StateStore)
    (now : Int) : StateStore × List RtCall :=
  tpbFold ok now s.active_backends (s, [])

/-! ## Controller database layer (`plane/src/database/backend.rs`)

The Postgres state touched by `BackendDatabase::update_state` and
friends: the `backend` table (keyed by backend id), the append-only
`backend_state` journal, and the `backend_key` table (one row per
backend id).  LISTEN/NOTIFY payloads produced by `emit_with_key` are
recorded in `emitted`. -/

/-- The columns of a `backend` row that `update_state` reads or
writes. -/
structure BackendRowDB where
  last_status : BackendStatus
  last_status_number : Option Int
  last_status_time : Int
  cluster_address : Option String
  state : BackendState
deriving DecidableEq, Repr

/-- A row of the `backend_state` journal. -/
structure JournalRow where
  backend_id : String
  state : BackendState
deriving DecidableEq, Repr

/-- The controller database, restricted to the tables `update_state`
touches. -/
structure ControllerDB where
  backend : List (String × BackendRowDB)
  backend_state : List JournalRow
  backend_key : List String
  emitted : List (String × BackendState)
deriving DecidableEq, Repr

/-- The SQL guard of `update_state`'s `update` statement:
`last_status_number < $3 or last_status_number is null`. -/
def rankOk (stored : Option Int) (newNumber : Int) : Bool :=
  match stored with
  | none => true
  | some n => decide (n < newNumber)

/-- The column writes of `update_state`'s `update` statement, applied
to a matching row (`last_status_time = now()`, and `cluster_address`
set to the new state's address — overwritten in every case). -/
def applyUpdate (now : Int) (new_state : BackendState) (_row : BackendRowDB) :
    BackendRowDB :=
  { last_status := new_state.status
    last_status_number := some new_state.status.as_int
    last_status_time := now
    cluster_address := new_state.address
    state := new_state }

/-- `BackendDatabase::update_state`: in one transaction, update the
`backend` row where `id = backend and (last_status_number < rank or
last_status_number is null)`.  If no row was affected, return `false`
with the database unchanged.  Otherwise, if the new state is
`Terminated` delete the backend's `backend_key` row, append the state
to the `backend_state` journal, emit the NOTIFY payload
(`emit_state_change`), commit, and return `true`. -/
def update_state (db : ControllerDB) (backend : String) (new_state : BackendState)
    (now : Int) : ControllerDB × Bool :=
  let n := new_state.status.as_int
  if db.backend.any (fun kv => kv.1 == backend && rankOk kv.2.last_status_number n) then
    let backend' := db.backend.map fun kv =>
      (kv.1,
        if kv.1 == backend && rankOk kv.2.last_status_number n then
          applyUpdate now new_state kv.2
        else kv.2)
    let keys' :=
      if new_state.isTerminated then
        db.backend_key.filter (fun k => !(k == backend))
      else db.backend_key
    ({ backend := backend'
       backend_state := db.backend_state ++ [⟨backend, new_state⟩]
       backend_key := keys'
       emitted := db.emitted ++ [(backend, new_state)] }, true)
  else
    (db, false)

/-- The `backend_state` journal restricted to one backend, in insertion
order (the `order by id asc` read of `status_stream`). -/
def journalOf (db : ControllerDB) (backend : String) : List BackendState :=
  (db.backend_state.filter (fun r => r.backend_id == backend)).map JournalRow.state

/-! ### Expiration sweep (`termination_candidates`) -/

/-- The columns of a `backend` row read by `termination_candidates`. -/
structure SweepRow where
  backend_id : String
  drone_id : Int
  last_status : BackendStatus
  expiration_time : Option Int
  allowed_idle_seconds : Option Int
  last_keepalive : Int
deriving DecidableEq, Repr

/-- The SQL `where` clause of `termination_candidates`, for one row:
`last_status not in ('scheduled', 'terminated') and (now -
last_keepalive > make_interval(secs => allowed_idle_seconds) or now >
expiration_time)`.  A SQL comparison against a null
`allowed_idle_seconds` or `expiration_time` is unknown and does not
select the row (times in seconds). -/
def sweepCond (now : Int) (r : SweepRow) : Bool :=
  (!(r.last_status == .Scheduled) && !(r.last_status == .Terminated)) &&
    ((match r.allowed_idle_seconds with
      | some ais => decide (now - r.last_keepalive > ais)
      | none => false) ||
     (match r.expiration_time with
      | some t => decide (now > t)
      | none => false))

/-- `BackendDatabase::termination_candidates(drone_id)`: the rows of
the `backend` table belonging to that drone and matching the sweep
condition. -/
def termination_candidates (now : Int) (drone_id : Int) (rows : List SweepRow) :
    List SweepRow :=
  rows.filter (fun r => r.drone_id == drone_id && sweepCond now r)

/-! ### Status stream (`status_stream`) -/

/-- The live half of `status_stream`'s generator: starting from the
last status seen (if any), yield each notified state only if its status
is strictly greater than the last one yielded (the Rust `state.status()
<= last_status` comparison uses the derived order on `BackendStatus`,
which agrees with `as_int`), updating the last seen status at each
yield. -/
def streamLive (lastStatus : Option BackendStatus) : List BackendState → List BackendState
  | [] => []
  | st :: rest =>
    match lastStatus with
    | none => st :: streamLive (some st.status) rest
    | some ls =>
      if st.status.as_int ≤ ls.as_int then
        streamLive (some ls) rest
      else
        st :: streamLive (some st.status) rest

/-- `BackendDatabase::status_stream` for one backend: replay the
`backend_state` journal in insertion order (every row is yielded and
updates the last seen status), then filter the live notifications
against the last status seen. -/
def status_stream (journal : List BackendState) (live : List BackendState) :
    List BackendState :=
  journal ++ streamLive ((journal.getLast?).map BackendState.status) live

/-! ## Derived views, invariants and concrete instances -/

/-- The id-free content of an event row (used to state which events the
startup reconciliation appends, independently of autoincrement ids). -/
def eventView (e : EventRow) : String × BackendState × Int :=
  (e.backend_id, e.state, e.timestamp)

/-- The id-free content of a store's event table. -/
def eventsView (s : StateStore) : List (String × BackendState × Int) :=
  s.events.map eventView

/-- The two events the startup reconciliation registers for one
preexisting backend, as id-free views. -/
def reconcileEvents (now : Int) (p : String × BackendState) :
    List (String × BackendState × Int) :=
  [(p.1, p.2.to_terminating .Hard .KeyExpired, now),
   (p.1, p.2.to_terminated none, now)]

/-- The ranks (`last_status_number` values) of a list of states. -/
def ranks (l : List BackendState) : List Int :=
  l.map (fun st => st.status.as_int)

/-- No backend whose `backend` row is `Terminated` still has a
`backend_key` row. -/
def terminatedNoKey (db : ControllerDB) : Prop :=
  ∀ b row, db.backend.lookup b = some row → row.last_status = .Terminated →
    b ∉ db.backend_key

/-- The invariant `update_state` maintains on the `backend_state`
journal: backend ids are unique in the `backend` table, each backend's
journal has strictly increasing ranks, and a nonempty journal is
dominated by the backend row's stored `last_status_number`. -/
def stateJournalInv (db : ControllerDB) : Prop :=
  (db.backend.map Prod.fst).Nodup ∧
  ∀ b : String,
    List.Chain' (· < ·) (ranks (journalOf db b)) ∧
    (journalOf db b = [] ∨
      ∃ row r, db.backend.lookup b = some row ∧ row.last_status_number = some r ∧
        ∀ q ∈ ranks (journalOf db b), q ≤ r)

/-- A state store holding two events whose timestamps decrease as the
event ids increase (the executor stamps every event of a backend with
the timestamp captured when its `Spawn` action arrived, so a backend
spawned earlier keeps writing events with an older timestamp than a
backend spawned later). -/
def c2Store : StateStore :=
  ((StateStore.empty.register_event "b1" .Scheduled 10).1.register_event
    "b2" .Loading 5).1

/-- A state store with one `Ready` backend and one already-`Terminated`
backend, used to instantiate the startup-reconciliation theorems. -/
def exStore : StateStore :=
  ((StateStore.empty.register_event "b1" (.Ready "1.2.3.4:80") 0).1.register_event
    "b2" (.Terminated (some .Ready) none (some 0)) 1).1

/-- A one-backend controller database (backend `b` is `Ready` with rank
40 and holds a key), used to instantiate the `update_state`
theorems. -/
def exDB : ControllerDB :=
  { backend := [("b", ⟨.Ready, some 40, 0, some "9.9.9.9:80", .Ready "9.9.9.9:80"⟩)]
    backend_state := [⟨"b", .Ready "9.9.9.9:80"⟩]
    backend_key := ["b"]
    emitted := [] }

/-- A sweep row for an idle backend: `allowed_idle_seconds = 5`,
keepalive 10 seconds old, no expiration time. -/
def exSweepRow : SweepRow :=
  { backend_id := "x", drone_id := 1, last_status := .Ready,
    expiration_time := none, allowed_idle_seconds := some 5,
    last_keepalive := 90 }

/-! ## Helper lemmas on association lists -/

theorem foldl_const {α β : Type} (l : List α) (acc : List β) :
    l.foldl (fun a _ => a) acc = acc := by
  induction l generalizing acc with
  | nil => rfl
  | cons x rest ih => exact ih acc

theorem lookup_map_keyfn {β : Type} (h : String → β → β) (l : List (String × β))
    (k : String) :
    (l.map (fun kv => (kv.1, h kv.1 kv.2))).lookup k = (l.lookup k).map (h k) := by
  induction l with
  | nil => rfl
  | cons kv rest ih =>
    obtain ⟨a, b⟩ := kv
    by_cases hk : k = a
    · subst hk
      simp [List.lookup_cons]
    · simp [List.lookup_cons, beq_false_of_ne hk, ih]

theorem keys_map_keyfn {β : Type} (h : String → β → β) (l : List (String × β)) :
    (l.map (fun kv => (kv.1, h kv.1 kv.2))).map Prod.fst = l.map Prod.fst := by
  induction l with
  | nil => rfl
  | cons kv rest ih => simp [ih]

theorem lookup_isSome_of_mem_keys {β : Type} (l : List (String × β)) (k : String)
    (hmem : k ∈ l.map Prod.fst) : ∃ w, l.lookup k = some w := by
  induction l with
  | nil => simp at hmem
  | cons kv rest ih =>
    obtain ⟨a, b⟩ := kv
    by_cases hk : k = a
    · subst hk
      exact ⟨b, by simp [List.lookup_cons]⟩
    · have : k ∈ rest.map Prod.fst := by
        simpa [hk] using hmem
      obtain ⟨w, hw⟩ := ih this
      exact ⟨w, by simp [List.lookup_cons, beq_false_of_ne hk, hw]⟩

theorem lookup_eq_none_of_not_mem_keys {β : Type} (l : List (String × β)) (k : String)
    (hmem : k ∉ l.map Prod.fst) : l.lookup k = none := by
  induction l with
  | nil => rfl
  | cons kv rest ih =>
    obtain ⟨a, b⟩ := kv
    have hk : k ≠ a := by
      intro h
      exact hmem (by simp [h])
    have : k ∉ rest.map Prod.fst := by
      intro h
      exact hmem (by simp [h])
    simp [List.lookup_cons, beq_false_of_ne hk, ih this]

theorem mem_of_lookup_eq_some {β : Type} (l : List (String × β)) (k : String) (w : β)
    (hl : l.lookup k = some w) : (k, w) ∈ l := by
  induction l with
  | nil => simp [List.lookup] at hl
  | cons kv rest ih =>
    obtain ⟨a, b⟩ := kv
    by_cases hk : k = a
    · subst hk
      simp [List.lookup_cons] at hl
      simp [hl]
    · simp [List.lookup_cons, beq_false_of_ne hk] at hl
      exact List.mem_cons_of_mem _ (ih hl)

theorem lookup_eq_some_of_mem_nodup {β : Type} (l : List (String × β))
    (hnd : (l.map Prod.fst).Nodup) (k : String) (w : β) (hmem : (k, w) ∈ l) :
    l.lookup k = some w := by
  induction l with
  | nil => simp at hmem
  | cons kv rest ih =>
    obtain ⟨a, b⟩ := kv
    rcases List.mem_cons.mp hmem with heq | htl
    · obtain ⟨h1, h2⟩ := Prod.mk.injEq .. ▸ heq
      subst h1; subst h2
      simp [List.lookup_cons]
    · have hk : k ≠ a := by
        intro h
        subst h
        have : k ∈ rest.map Prod.fst := List.mem_map.mpr ⟨(k, w), htl, rfl⟩
        exact (List.nodup_cons.mp hnd).1 this
      simp [List.lookup_cons, beq_false_of_ne hk]
      exact ih (List.nodup_cons.mp hnd).2 htl

theorem length_filter_partition {α : Type} (p : α → Bool) (l : List α) :
    (l.filter p).length + (l.filter (fun a => !p a)).length = l.length := by
  induction l with
  | nil => rfl
  | cons x rest ih =>
    by_cases hx : p x
    · simp [List.filter_cons, hx, ← ih]
      omega
    · simp [List.filter_cons, hx, ← ih]
      omega

/-! ## Claim theorems -/

/-- **C6**: for every bearer token `T` and path suffix `p`, a proxied
request with path `/T/p` reaches the backend with path `/p` when `T` is
non-static and with the original path `/s.T/p` when the token is static,
a token being static exactly when it begins with `s.` — with the
concrete instances checked by `proxy_backend_accepts` and
`proxy_static_token` in `plane-tests/tests/proxy.rs`. -/
theorem token_strip_round_trip :
    (∀ T p, upstream_path T p = if is_static T then "/" ++ T ++ p else p) ∧
    (∀ T, is_static ("s." ++ T) = true) ∧
    upstream_path "abc123" "/" = "/" ∧
    upstream_path "s.abc123" "/foobar" = "/s.abc123/foobar" ∧
    is_static "abc123" = false ∧
    is_static "s.abc123" = true := by
  refine ⟨fun _ _ => rfl, fun T => ?_, by decide, by decide, by decide, by decide⟩
  have hlead : ∀ (pre l : List Char), charsLeadWith pre (pre ++ l) = true := by
    intro pre
    induction pre with
    | nil => intro l; rfl
    | cons a as ih => intro l; simp [charsLeadWith, ih]
  have hdata : ("s." ++ T).data = "s.".data ++ T.data := String.data_append ..
  rw [is_static, hdata]
  exact hlead "s.".data T.data

/-- **C4** (code bug): the plane2 renewal task never sends a
`RenewKeyRequest` at all — the loop body constructs the request and
drops it — and the body only runs after `receiver.changed()` completes,
which requires a controller response delivered by `receive_response`;
with no response the loop performs no iteration, so in particular no
first renewal request is ever sent for a freshly registered key. -/
theorem renew_key_loop_never_sends :
    (∀ now responses, renew_key_loop_sent now responses = []) ∧
    (∀ now responses,
      (renew_key_loop_iterations now responses).length = responses.length) ∧
    (∀ now, renew_key_loop_iterations now [] = []) :=
  ⟨fun now responses => foldl_const _ _,
   fun now responses => by simp [renew_key_loop_iterations],
   fun now => rfl⟩

/-- **C2** (counterexample): a state store whose two events have
decreasing timestamps (ids `[1, 2]`, timestamps `[10, 5]`) replays
`[2, 1]` on `register_listener` — the replay is ordered by the
`timestamp` column, not by event id. -/
theorem register_listener_replay_not_id_order :
    c2Store.events.map (fun e => e.id) = [1, 2] ∧
    c2Store.register_listener.1.map (fun m => m.event_id) = [2, 1] ∧
    c2Store.register_listener.1.map (fun m => m.event_id) ≠
      c2Store.events.map (fun e => e.id) := by
  refine ⟨by decide, by decide, by decide⟩

/-- **C2** (amended): `register_listener` replays to the new listener
exactly the currently unacked events — those appended by
`register_event` and not removed by `ack_event`, which is the sole
removal path — ordered by timestamp (ties in insertion order), before
the listener becomes live for new events (a `register_event` after
`register_listener` delivers exactly the newly appended event). -/
theorem register_listener_replays_unacked_by_timestamp :
    (∀ s : StateStore,
      s.register_listener.1 = s.unacked_events.map EventRow.toMessage ∧
      s.unacked_events.Perm s.events ∧
      List.Sorted tsLe s.unacked_events ∧
      s.register_listener.2.events = s.events) ∧
    (∀ (s : StateStore) (b : String) (st : BackendState) (ts : Int),
      ((s.register_event b st ts).1).events =
        s.events ++ [⟨s.nextId, b, st, ts⟩]) ∧
    (∀ (s : StateStore) (eid : Int), (s.ack_event eid).events =
      s.events.filter (fun e => !(e.id == eid))) ∧
    (∀ (s : StateStore) (b : String) (st : BackendState) (ts : Int),
      (s.register_listener.2.register_event b st ts).2 =
        some ⟨s.nextId, b, st, ts⟩) :=
  ⟨fun s => ⟨rfl, List.perm_insertionSort tsLe s.events,
      List.sorted_insertionSort tsLe s.events, rfl⟩,
   fun _ _ _ _ => rfl, fun _ _ => rfl, fun _ _ _ _ => rfl⟩

/-! ### `update_state` lemmas (claims C1, C9, C5) -/

theorem status_eq_terminated_iff (st : BackendState) :
    st.status = .Terminated ↔ st.isTerminated = true := by
  cases st <;> simp [BackendState.status, BackendState.isTerminated]

theorem any_key_cond_eq_false {β : Type} (p : β → Bool) (l : List (String × β))
    (hnd : (l.map Prod.fst).Nodup) (k : String) (row : β)
    (hl : l.lookup k = some row) (hp : p row = false) :
    l.any (fun kv => kv.1 == k && p kv.2) = false := by
  rw [Bool.eq_false_iff]
  intro hany
  obtain ⟨kv, hmem, hcond⟩ := List.any_eq_true.mp hany
  rw [Bool.and_eq_true] at hcond
  obtain ⟨hbeq, hpk⟩ := hcond
  have hkey : kv.1 = k := eq_of_beq hbeq
  have hlk : l.lookup kv.1 = some kv.2 :=
    lookup_eq_some_of_mem_nodup l hnd kv.1 kv.2 hmem
  rw [hkey, hl] at hlk
  have : row = kv.2 := Option.some.inj hlk
  rw [← this] at hpk
  rw [hp] at hpk
  exact Bool.false_ne_true hpk

theorem update_state_rejected (db : ControllerDB) (b : String) (st : BackendState)
    (now : Int) (row : BackendRowDB) (r : Int)
    (hnd : (db.backend.map Prod.fst).Nodup)
    (hl : db.backend.lookup b = some row)
    (hr : row.last_status_number = some r)
    (hle : st.status.as_int ≤ r) :
    update_state db b st now = (db, false) := by
  have hp : rankOk row.last_status_number st.status.as_int = false := by
    rw [hr]
    simp [rankOk]
    omega
  have hany := any_key_cond_eq_false
    (fun v => rankOk v.last_status_number st.status.as_int) db.backend hnd b row hl hp
  unfold update_state
  simp [hany]

/-- In the successful branch of `update_state`, the `backend` table is
the key-preserving per-row update. -/
theorem update_state_backend_of_success (db : ControllerDB) (b : String)
    (st : BackendState) (now : Int)
    (hc : db.backend.any (fun kv =>
      kv.1 == b && rankOk kv.2.last_status_number st.status.as_int) = true) :
    (update_state db b st now).1.backend =
      db.backend.map (fun kv => (kv.1,
        if kv.1 == b && rankOk kv.2.last_status_number st.status.as_int then
          applyUpdate now st kv.2
        else kv.2)) := by
  unfold update_state
  simp [hc]

/-- **C1**: `last_status_number` is monotonically non-decreasing under
`update_state`, and an update whose rank is strictly smaller than the
stored rank is silently ignored: the call returns `false` and the whole
database — backend row (`last_status`, `last_status_number`,
`cluster_address`, `state`), journal, keys and emitted events — is
unchanged. -/
theorem update_state_rank_monotone :
    (∀ (db : ControllerDB) (b : String) (st : BackendState) (now : Int)
        (row : BackendRowDB) (r : Int),
      (db.backend.map Prod.fst).Nodup →
      db.backend.lookup b = some row →
      row.last_status_number = some r →
      st.status.as_int < r →
      update_state db b st now = (db, false)) ∧
    (∀ (db : ControllerDB) (b : String) (st : BackendState) (now : Int)
        (b' : String) (row row' : BackendRowDB) (r : Int),
      db.backend.lookup b' = some row →
      (update_state db b st now).1.backend.lookup b' = some row' →
      row.last_status_number = some r →
      ∃ r', row'.last_status_number = some r' ∧ r ≤ r') := by
  constructor
  · intro db b st now row r hnd hl hr hlt
    exact update_state_rejected db b st now row r hnd hl hr (le_of_lt hlt)
  · intro db b st now b' row row' r hl hl' hr
    by_cases hc : db.backend.any (fun kv =>
      kv.1 == b && rankOk kv.2.last_status_number st.status.as_int) = true
    · rw [update_state_backend_of_success db b st now hc] at hl'
      rw [lookup_map_keyfn (fun a v =>
        if a == b && rankOk v.last_status_number st.status.as_int then
          applyUpdate now st v
        else v) db.backend b'] at hl'
      rw [hl] at hl'
      have hrow' : row' =
          (if b' == b && rankOk row.last_status_number st.status.as_int then
            applyUpdate now st row
          else row) := (Option.some.inj hl').symm
      by_cases hcond : (b' == b && rankOk row.last_status_number st.status.as_int) = true
      · rw [if_pos hcond] at hrow'
        rw [Bool.and_eq_true] at hcond
        obtain ⟨-, hro⟩ := hcond
        rw [hr] at hro
        have hrn : r < st.status.as_int := by
          simpa [rankOk] using hro
        exact ⟨st.status.as_int, by rw [hrow']; rfl, le_of_lt hrn⟩
      · rw [if_neg hcond] at hrow'
        exact ⟨r, by rw [hrow']; exact hr, le_refl r⟩
    · have hc' : db.backend.any (fun kv =>
        kv.1 == b && rankOk kv.2.last_status_number st.status.as_int) = false :=
          Bool.eq_false_iff.mpr hc
      unfold update_state at hl'
      simp [hc'] at hl'
      rw [hl] at hl'
      exact ⟨r, by rw [← Option.some.inj hl']; exact hr, le_refl r⟩

/-- Witness for C1 at a concrete database: a stale `Starting` (rank 20)
update against a `Ready` (rank 40) row is ignored, and the stored rank
does not decrease. -/
theorem update_state_rank_monotone_witness :
    update_state exDB "b" .Starting 5 = (exDB, false) ∧
    ∃ r', (⟨.Terminated, some 70, 5, none, .Terminated (some .Ready) none none⟩ :
        BackendRowDB).last_status_number = some r' ∧ (40 : Int) ≤ r' := by
  constructor
  · exact update_state_rank_monotone.1 exDB "b" .Starting 5
      ⟨.Ready, some 40, 0, some "9.9.9.9:80", .Ready "9.9.9.9:80"⟩ 40
      (by decide) (by decide) rfl (by decide)
  · exact update_state_rank_monotone.2 exDB "b" (.Terminated (some .Ready) none none) 5
      "b" ⟨.Ready, some 40, 0, some "9.9.9.9:80", .Ready "9.9.9.9:80"⟩
      ⟨.Terminated, some 70, 5, none,
        .Terminated (some .Ready) none none⟩ 40 (by decide) (by decide) rfl

/-- **C9**: `update_state` is atomic on rejection — when the new rank is
not strictly greater than the stored `last_status_number`, the call
returns `false` and the database value is unchanged in every component:
backend rows, `backend_state` journal, emitted events, and
`backend_key` rows (even if the rejected state was `Terminated`). -/
theorem update_state_rejection_atomic (db : ControllerDB) (b : String)
    (st : BackendState) (now : Int) (row : BackendRowDB) (r : Int)
    (hnd : (db.backend.map Prod.fst).Nodup)
    (hl : db.backend.lookup b = some row)
    (hr : row.last_status_number = some r)
    (hle : st.status.as_int ≤ r) :
    update_state db b st now = (db, false) :=
  update_state_rejected db b st now row r hnd hl hr hle

/-- Witness for C9: an equal-rank `Terminated` update against an
already-`Terminated` row (rank 70) is rejected with the database —
including its `backend_key` table — unchanged. -/
theorem update_state_rejection_atomic_witness :
    update_state
      { backend := [("b", ⟨.Terminated, some 70, 0, none, .Terminated none none none⟩)]
        backend_state := [], backend_key := ["b"], emitted := [] }
      "b" (.Terminated none none none) 3 =
      ({ backend := [("b", ⟨.Terminated, some 70, 0, none, .Terminated none none none⟩)]
         backend_state := [], backend_key := ["b"], emitted := [] }, false) :=
  update_state_rejection_atomic _ "b" (.Terminated none none none) 3
    ⟨.Terminated, some 70, 0, none, .Terminated none none none⟩ 70
    (by decide) (by decide) rfl (by decide)

/-- **C5**: when `update_state` successfully records a `Terminated`
state, the same transaction deletes the backend's `backend_key` row;
consequently `update_state` preserves the invariant that no backend
whose row is `Terminated` still holds a key. -/
theorem terminated_update_deletes_key :
    (∀ (db : ControllerDB) (b : String) (st : BackendState) (now : Int),
      st.isTerminated = true →
      (update_state db b st now).2 = true →
      b ∉ (update_state db b st now).1.backend_key) ∧
    (∀ (db : ControllerDB) (b : String) (st : BackendState) (now : Int),
      (db.backend.map Prod.fst).Nodup →
      terminatedNoKey db →
      terminatedNoKey (update_state db b st now).1) := by
  constructor
  · intro db b st now hterm hok
    by_cases hc : db.backend.any (fun kv =>
      kv.1 == b && rankOk kv.2.last_status_number st.status.as_int) = true
    · unfold update_state
      simp [hc, hterm]
    · have hc' := Bool.eq_false_iff.mpr hc
      unfold update_state at hok
      simp [hc'] at hok
  · intro db b st now hnd hinv
    by_cases hc : db.backend.any (fun kv =>
      kv.1 == b && rankOk kv.2.last_status_number st.status.as_int) = true
    · intro b' row' hl' hstat hkmem
      rw [update_state_backend_of_success db b st now hc] at hl'
      rw [lookup_map_keyfn (fun a v =>
        if a == b && rankOk v.last_status_number st.status.as_int then
          applyUpdate now st v
        else v) db.backend b'] at hl'
      obtain ⟨row, hrow, hrow'⟩ := Option.map_eq_some'.mp hl'
      have hkeys : (update_state db b st now).1.backend_key =
          (if st.isTerminated then
            db.backend_key.filter (fun k => !(k == b))
          else db.backend_key) := by
        unfold update_state
        simp [hc]
      by_cases hcond : (b' == b && rankOk row.last_status_number st.status.as_int) = true
      · have hcond2 := hcond
        rw [Bool.and_eq_true] at hcond2
        obtain ⟨hb', -⟩ := hcond2
        have hbb : b' = b := eq_of_beq hb'
        rw [if_pos hcond] at hrow'
        have hst : st.status = .Terminated := by
          rw [← hrow'] at hstat
          exact hstat
        have hterm : st.isTerminated = true := (status_eq_terminated_iff st).mp hst
        rw [hkeys, if_pos hterm] at hkmem
        have := (List.mem_filter.mp hkmem).2
        rw [hbb] at this
        simp at this
      · rw [if_neg hcond] at hrow'
        rw [← hrow'] at hstat
        have hnk : b' ∉ db.backend_key := hinv b' row hrow hstat
        rw [hkeys] at hkmem
        by_cases hterm : st.isTerminated = true
        · rw [if_pos hterm] at hkmem
          exact hnk (List.mem_filter.mp hkmem).1
        · rw [if_neg hterm] at hkmem
          exact hnk hkmem
    · intro b' row' hl' hstat hkmem
      have hc' := Bool.eq_false_iff.mpr hc
      have hdb : (update_state db b st now).1 = db := by
        unfold update_state
        simp [hc']
      rw [hdb] at hl' hkmem
      exact hinv b' row' hl' hstat hkmem

/-- Witness for C5: recording `Terminated` over the `Ready` backend of
`exDB` deletes its key, and the terminated-no-key invariant is
preserved on a concrete database. -/
theorem terminated_update_deletes_key_witness :
    "b" ∉ (update_state exDB "b" (.Terminated (some .Ready) none none) 5).1.backend_key ∧
    terminatedNoKey (update_state exDB "b" (.Terminated (some .Ready) none none) 5).1 := by
  constructor
  · exact terminated_update_deletes_key.1 exDB "b"
      (.Terminated (some .Ready) none none) 5 rfl (by decide)
  · refine terminated_update_deletes_key.2 exDB "b"
      (.Terminated (some .Ready) none none) 5 (by decide) ?_
    intro b' row' hl' hstat
    have : row' = ⟨.Ready, some 40, 0, some "9.9.9.9:80", .Ready "9.9.9.9:80"⟩ := by
      by_cases hb : b' = "b"
      · subst hb
        simp [exDB, List.lookup_cons] at hl'
        exact hl'.symm
      · rw [lookup_eq_none_of_not_mem_keys] at hl'
        · exact absurd hl' (by simp)
        · simpa [exDB] using hb
    rw [this] at hstat
    exact absurd hstat (by decide)

/-! ### Expiration sweep (claim C7) -/

theorem sweepCond_eq_true_iff (now : Int) (r : SweepRow) :
    sweepCond now r = true ↔
      (r.last_status ≠ .Scheduled ∧ r.last_status ≠ .Terminated ∧
        ((∃ ais, r.allowed_idle_seconds = some ais ∧ now - r.last_keepalive > ais) ∨
         (∃ t, r.expiration_time = some t ∧ now > t))) := by
  unfold sweepCond
  cases h1 : r.allowed_idle_seconds <;> cases h2 : r.expiration_time <;>
    simp [h1, h2, Bool.and_eq_true, Bool.or_eq_true, and_assoc]

/-- **C7**: the expiration sweep selects a backend of a drone exactly
when its last status is neither `Scheduled` nor `Terminated` and either
`now - last_keepalive` exceeds `allowed_idle_seconds` or `now` is past
`expiration_time`; in particular a backend with `allowed_idle_seconds`
set and a keepalive older than that limit is selected on the next sweep
tick. -/
theorem termination_candidates_iff :
    (∀ (now droneId : Int) (rows : List SweepRow) (r : SweepRow),
      r ∈ termination_candidates now droneId rows ↔
        (r ∈ rows ∧ r.drone_id = droneId ∧
          r.last_status ≠ .Scheduled ∧ r.last_status ≠ .Terminated ∧
          ((∃ ais, r.allowed_idle_seconds = some ais ∧ now - r.last_keepalive > ais) ∨
           (∃ t, r.expiration_time = some t ∧ now > t)))) ∧
    (∀ (now droneId : Int) (rows : List SweepRow) (r : SweepRow),
      r ∈ rows → r.drone_id = droneId →
      r.last_status ≠ .Scheduled → r.last_status ≠ .Terminated →
      ∀ ais, r.allowed_idle_seconds = some ais → now - r.last_keepalive > ais →
      r ∈ termination_candidates now droneId rows) := by
  have hmain : ∀ (now droneId : Int) (rows : List SweepRow) (r : SweepRow),
      r ∈ termination_candidates now droneId rows ↔
        (r ∈ rows ∧ r.drone_id = droneId ∧
          r.last_status ≠ .Scheduled ∧ r.last_status ≠ .Terminated ∧
          ((∃ ais, r.allowed_idle_seconds = some ais ∧ now - r.last_keepalive > ais) ∨
           (∃ t, r.expiration_time = some t ∧ now > t))) := by
    intro now droneId rows r
    unfold termination_candidates
    rw [List.mem_filter]
    constructor
    · rintro ⟨hmem, hcond⟩
      rw [Bool.and_eq_true] at hcond
      obtain ⟨hd, hc⟩ := hcond
      obtain ⟨h1, h2, h3⟩ := (sweepCond_eq_true_iff now r).mp hc
      exact ⟨hmem, eq_of_beq hd, h1, h2, h3⟩
    · rintro ⟨hmem, hd, h1, h2, h3⟩
      refine ⟨hmem, ?_⟩
      rw [Bool.and_eq_true]
      exact ⟨beq_iff_eq.mpr hd, (sweepCond_eq_true_iff now r).mpr ⟨h1, h2, h3⟩⟩
  refine ⟨hmain, ?_⟩
  intro now droneId rows r hmem hd h1 h2 ais hais hidle
  exact (hmain now droneId rows r).mpr ⟨hmem, hd, h1, h2, Or.inl ⟨ais, hais, hidle⟩⟩

/-- Witness for C7: the idle `Ready` row of `exSweepRow` (idle 10 s
against a 5 s limit) is selected by the sweep at `now = 100`. -/
theorem termination_candidates_iff_witness :
    exSweepRow ∈ termination_candidates 100 1 [exSweepRow] :=
  termination_candidates_iff.2 100 1 [exSweepRow] exSweepRow
    (by decide) rfl (by decide) (by decide) 5 rfl (by decide)

/-! ### Status stream (claim C8) -/

theorem streamLive_chain (live : List BackendState) :
    ∀ last? : Option BackendStatus,
      List.Chain' (· < ·) (ranks (streamLive last? live)) ∧
      (∀ a, last? = some a →
        ∀ st ∈ streamLive last? live, a.as_int < st.status.as_int) := by
  induction live with
  | nil =>
    intro last?
    refine ⟨?_, ?_⟩
    · cases last? <;> exact List.chain'_nil
    · intro a ha st hst
      cases last? <;> simp [streamLive] at hst
  | cons st rest ih =>
    intro last?
    have hcons : ∀ (tl : List BackendState),
        List.Chain' (· < ·) (ranks tl) →
        (∀ u ∈ tl, st.status.as_int < u.status.as_int) →
        List.Chain' (· < ·) (ranks (st :: tl)) := by
      intro tl hch hbd
      have : ranks (st :: tl) = st.status.as_int :: ranks tl := rfl
      rw [this]
      refine List.chain'_cons'.mpr ⟨?_, hch⟩
      intro y hy
      rw [show ranks tl = tl.map (fun u => u.status.as_int) from rfl,
        List.head?_map] at hy
      obtain ⟨u, hu, rfl⟩ := Option.map_eq_some'.mp (Option.mem_def.mp hy)
      exact hbd u (List.mem_of_mem_head? (Option.mem_def.mpr hu))
    cases last? with
    | none =>
      have hrec := ih (some st.status)
      refine ⟨?_, ?_⟩
      · show List.Chain' (· < ·) (ranks (st :: streamLive (some st.status) rest))
        exact hcons _ hrec.1 (fun u hu => hrec.2 st.status rfl u hu)
      · intro a ha
        exact absurd ha (by simp)
    | some ls =>
      by_cases hle : st.status.as_int ≤ ls.as_int
      · have hrec := ih (some ls)
        refine ⟨?_, ?_⟩
        · rw [show streamLive (some ls) (st :: rest) =
            streamLive (some ls) rest by simp [streamLive, hle]]
          exact hrec.1
        · intro a ha u hu
          rw [show streamLive (some ls) (st :: rest) =
            streamLive (some ls) rest by simp [streamLive, hle]] at hu
          exact hrec.2 a ha u hu
      · have hrec := ih (some st.status)
        have hout : streamLive (some ls) (st :: rest) =
            st :: streamLive (some st.status) rest := by
          simp [streamLive, hle]
        refine ⟨?_, ?_⟩
        · rw [hout]
          exact hcons _ hrec.1 (fun u hu => hrec.2 st.status rfl u hu)
        · intro a ha u hu
          have haa : a = ls := by
            injection ha.symm
          subst haa
          rw [hout] at hu
          rcases List.mem_cons.mp hu with rfl | htl
          · omega
          · have := hrec.2 st.status rfl u htl
            omega

/-- In the successful branch of `update_state`, one journal row is
appended for the updated backend and no other journal changes. -/
theorem journalOf_update_success (db : ControllerDB) (b : String)
    (st : BackendState) (now : Int)
    (hc : db.backend.any (fun kv =>
      kv.1 == b && rankOk kv.2.last_status_number st.status.as_int) = true)
    (b' : String) :
    journalOf (update_state db b st now).1 b' =
      journalOf db b' ++ (if b == b' then [st] else []) := by
  have hbs : (update_state db b st now).1.backend_state =
      db.backend_state ++ [⟨b, st⟩] := by
    unfold update_state
    simp [hc]
  unfold journalOf
  rw [hbs, List.filter_append, List.map_append]
  congr 1
  by_cases hb : b = b'
  · simp [List.filter_cons, hb]
  · simp [List.filter_cons, beq_false_of_ne hb, hb]

theorem any_key_cond_implies {β : Type} (p : β → Bool) (l : List (String × β))
    (hnd : (l.map Prod.fst).Nodup) (k : String)
    (h : l.any (fun kv => kv.1 == k && p kv.2) = true) :
    ∃ row, l.lookup k = some row ∧ p row = true := by
  obtain ⟨kv, hmem, hcond⟩ := List.any_eq_true.mp h
  rw [Bool.and_eq_true] at hcond
  obtain ⟨hb, hp⟩ := hcond
  have hlk := lookup_eq_some_of_mem_nodup l hnd kv.1 kv.2 hmem
  rw [eq_of_beq hb] at hlk
  exact ⟨kv.2, hlk, hp⟩

theorem keys_update_success (db : ControllerDB) (b : String) (st : BackendState)
    (now : Int)
    (hc : db.backend.any (fun kv =>
      kv.1 == b && rankOk kv.2.last_status_number st.status.as_int) = true) :
    (update_state db b st now).1.backend.map Prod.fst = db.backend.map Prod.fst := by
  rw [update_state_backend_of_success db b st now hc, List.map_map]
  rfl

theorem stateJournalInv_preserved (db : ControllerDB) (b : String)
    (st : BackendState) (now : Int) (hinv : stateJournalInv db) :
    stateJournalInv (update_state db b st now).1 := by
  obtain ⟨hnd, hj⟩ := hinv
  by_cases hc : db.backend.any (fun kv =>
    kv.1 == b && rankOk kv.2.last_status_number st.status.as_int) = true
  case neg =>
    have hc' := Bool.eq_false_iff.mpr hc
    have : (update_state db b st now).1 = db := by
      unfold update_state
      simp [hc']
    rw [this]
    exact ⟨hnd, hj⟩
  case pos =>
    obtain ⟨row0, hrow0, hro⟩ := any_key_cond_implies
      (fun v => rankOk v.last_status_number st.status.as_int) db.backend hnd b hc
    have hlookup : ∀ b', (update_state db b st now).1.backend.lookup b' =
        (db.backend.lookup b').map (fun v =>
          if b' == b && rankOk v.last_status_number st.status.as_int then
            applyUpdate now st v
          else v) := by
      intro b'
      rw [update_state_backend_of_success db b st now hc]
      exact lookup_map_keyfn (fun a v =>
        if a == b && rankOk v.last_status_number st.status.as_int then
          applyUpdate now st v
        else v) db.backend b'
    refine ⟨?_, ?_⟩
    · rw [keys_update_success db b st now hc]
      exact hnd
    · intro b'
      rw [journalOf_update_success db b st now hc b']
      by_cases hb : b = b'
      · subst hb
        rw [if_pos (beq_self_eq_true b)]
        obtain ⟨hch, hdom⟩ := hj b
        have hstep : ∀ q ∈ ranks (journalOf db b), q < st.status.as_int := by
          intro q hq
          rcases hdom with hnil | ⟨row, r, hlk, hlsn, hdq⟩
          · rw [hnil] at hq
            simp [ranks] at hq
          · have : row = row0 := by
              rw [hrow0] at hlk
              exact (Option.some.inj hlk).symm
            subst this
            rw [hlsn] at hro
            have : r < st.status.as_int := by
              simpa [rankOk] using hro
            exact lt_of_le_of_lt (hdq q hq) this
        refine ⟨?_, ?_⟩
        · rw [show ranks (journalOf db b ++ [st]) =
            ranks (journalOf db b) ++ [st.status.as_int] by
              simp [ranks]]
          refine List.Chain'.append hch (List.chain'_singleton _) ?_
          intro x hx y hy
          simp at hy
          subst hy
          exact hstep x (List.mem_of_mem_getLast? hx)
        · refine Or.inr ⟨applyUpdate now st row0, st.status.as_int, ?_, rfl, ?_⟩
          · rw [hlookup b, hrow0]
            simp [hro]
          · intro q hq
            rw [show ranks (journalOf db b ++ [st]) =
              ranks (journalOf db b) ++ [st.status.as_int] by
                simp [ranks]] at hq
            rcases List.mem_append.mp hq with hq | hq
            · exact le_of_lt (hstep q hq)
            · simp at hq
              omega
      · rw [if_neg (by simpa using hb), List.append_nil]
        obtain ⟨hch, hdom⟩ := hj b'
        refine ⟨hch, ?_⟩
        rcases hdom with hnil | ⟨row, r, hlk, hlsn, hdq⟩
        · exact Or.inl hnil
        · refine Or.inr ⟨row, r, ?_, hlsn, hdq⟩
          rw [hlookup b', hlk]
          have hbb : (b' == b) = false := beq_false_of_ne (fun h => hb h.symm)
          simp [hbb]

/-- **C8**: the sequence of state ranks yielded to a status-stream
subscriber is non-decreasing: the stream replays the journal in
insertion order, then yields each live notification only if its rank is
strictly greater than the last rank yielded; and `update_state` keeps
each backend's journal strictly increasing in rank (so the replayed
prefix satisfies the hypothesis). -/
theorem status_stream_rank_monotone :
    (∀ journal live, List.Chain' (· ≤ ·) (ranks journal) →
      List.Chain' (· ≤ ·) (ranks (status_stream journal live)) ∧
      List.Chain' (· < ·)
        (ranks (streamLive ((journal.getLast?).map BackendState.status) live))) ∧
    (∀ (db : ControllerDB) (b : String) (st : BackendState) (now : Int),
      stateJournalInv db → stateJournalInv (update_state db b st now).1) ∧
    (∀ db : ControllerDB, stateJournalInv db →
      ∀ b, List.Chain' (· ≤ ·) (ranks (journalOf db b))) := by
  refine ⟨?_, fun db b st now hinv => stateJournalInv_preserved db b st now hinv,
    fun db hinv b =>
      ((hinv.2 b).1).imp (fun a c h => le_of_lt h)⟩
  intro journal live hj
  have hlive := streamLive_chain live ((journal.getLast?).map BackendState.status)
  refine ⟨?_, hlive.1⟩
  rw [show ranks (status_stream journal live) =
    ranks journal ++
      ranks (streamLive ((journal.getLast?).map BackendState.status) live) by
      simp [status_stream, ranks]]
  refine List.Chain'.append hj (hlive.1.imp (fun a c h => le_of_lt h)) ?_
  intro x hx y hy
  cases hlast : journal.getLast? with
  | none =>
    rw [show ranks journal = journal.map (fun u => u.status.as_int) from rfl,
      List.getLast?_map, hlast] at hx
    simp at hx
  | some stJ =>
    have hxval : x = stJ.status.as_int := by
      rw [show ranks journal = journal.map (fun u => u.status.as_int) from rfl,
        List.getLast?_map, hlast] at hx
      simpa using (Option.mem_def.mp hx).symm
    subst hxval
    rw [show ranks (streamLive ((journal.getLast?).map BackendState.status) live) =
      (streamLive ((journal.getLast?).map BackendState.status) live).map
        (fun u => u.status.as_int) from rfl, List.head?_map] at hy
    obtain ⟨u, hu, rfl⟩ := Option.map_eq_some'.mp (Option.mem_def.mp hy)
    have := hlive.2 stJ.status (by rw [hlast]; rfl) u
      (List.mem_of_mem_head? (Option.mem_def.mpr hu))
    exact le_of_lt this

/-- Witness for C8 at concrete inputs: the stream over journal
`[Scheduled, Ready]` and live states `[Ready, Terminated, Loading]`
yields non-decreasing ranks, and a successful `Terminated` update on
`exDB` preserves the journal invariant. -/
theorem status_stream_rank_monotone_witness :
    List.Chain' (· ≤ ·)
      (ranks (status_stream [.Scheduled, .Ready "a"]
        [.Ready "a", .Terminated none none none, .Loading])) ∧
    stateJournalInv (update_state exDB "b" (.Terminated (some .Ready) none none) 5).1 := by
  constructor
  · refine (status_stream_rank_monotone.1 [.Scheduled, .Ready "a"]
      [.Ready "a", .Terminated none none none, .Loading] ?_).1
    rw [show ranks [BackendState.Scheduled, BackendState.Ready "a"] =
      [(1 : Int), 40] from rfl]
    exact List.chain'_cons.mpr ⟨by norm_num, List.chain'_singleton _⟩
  · refine status_stream_rank_monotone.2.1 exDB "b"
      (.Terminated (some .Ready) none none) 5 ⟨by decide, ?_⟩
    intro b
    by_cases hb : ("b" : String) = b
    · subst hb
      refine ⟨?_, Or.inr ⟨⟨.Ready, some 40, 0, some "9.9.9.9:80", .Ready "9.9.9.9:80"⟩,
        40, by simp [exDB, List.lookup_cons], rfl, ?_⟩⟩
      · show List.Chain' (· < ·) (ranks (journalOf exDB "b"))
        have : journalOf exDB "b" = [.Ready "9.9.9.9:80"] := by
          simp [journalOf, exDB]
        rw [this]
        exact List.chain'_singleton _
      · intro q hq
        have : journalOf exDB "b" = [.Ready "9.9.9.9:80"] := by
          simp [journalOf, exDB]
        rw [this] at hq
        simp [ranks, BackendState.status, BackendStatus.as_int] at hq
        omega
    · have hjb : journalOf exDB b = [] := by
        simp [journalOf, exDB, beq_false_of_ne hb]
      exact ⟨by rw [hjb]; exact List.chain'_nil, Or.inl hjb⟩

/-! ### Startup reconciliation lemmas (claims C3, C10) -/

theorem any_key_iff {β : Type} (l : List (String × β)) (k : String) :
    l.any (fun kv => kv.1 == k) = true ↔ k ∈ l.map Prod.fst := by
  rw [List.any_eq_true]
  constructor
  · rintro ⟨kv, hmem, hbeq⟩
    exact List.mem_map.mpr ⟨kv, hmem, eq_of_beq hbeq⟩
  · intro h
    obtain ⟨kv, hmem, hk⟩ := List.mem_map.mp h
    exact ⟨kv, hmem, beq_iff_eq.mpr hk⟩

theorem upsertBackend_hit (l : List (String × BackendState)) (k : String)
    (v : BackendState) (hk : k ∈ l.map Prod.fst) :
    upsertBackend l k v = l.map (fun kv => (kv.1, if kv.1 == k then v else kv.2)) := by
  unfold upsertBackend
  rw [if_pos ((any_key_iff l k).mpr hk)]

theorem keys_upsertBackend_hit (l : List (String × BackendState)) (k : String)
    (v : BackendState) (hk : k ∈ l.map Prod.fst) :
    (upsertBackend l k v).map Prod.fst = l.map Prod.fst := by
  rw [upsertBackend_hit l k v hk, List.map_map]
  rfl

theorem terminateOne_backend (ok : Nat → Bool) (s : StateStore) (b : String)
    (st : BackendState) (now : Int) (hk : b ∈ s.backend.map Prod.fst) :
    (terminateOne ok s b st now).1.backend =
      s.backend.map (fun kv =>
        (kv.1, if kv.1 == b then st.to_terminated none else kv.2)) := by
  have h1 : (terminateOne ok s b st now).1.backend =
      upsertBackend (upsertBackend s.backend b
        (st.to_terminating .Hard .KeyExpired)) b (st.to_terminated none) := rfl
  rw [h1, upsertBackend_hit s.backend b _ hk, upsertBackend_hit _ b _ (by
    rw [List.map_map]
    exact hk), List.map_map]
  apply List.map_congr_left
  intro kv _
  by_cases hkb : kv.1 == b <;> simp [Function.comp, hkb]

theorem terminateOne_keys (ok : Nat → Bool) (s : StateStore) (b : String)
    (st : BackendState) (now : Int) (hk : b ∈ s.backend.map Prod.fst) :
    (terminateOne ok s b st now).1.backend.map Prod.fst = s.backend.map Prod.fst := by
  rw [terminateOne_backend ok s b st now hk, List.map_map]
  rfl

theorem terminateOne_events (ok : Nat → Bool) (s : StateStore) (b : String)
    (st : BackendState) (now : Int) :
    eventsView (terminateOne ok s b st now).1 =
      eventsView s ++ reconcileEvents now (b, st) := by
  have h1 : (terminateOne ok s b st now).1.events =
      (s.events ++ [⟨s.nextId, b, st.to_terminating .Hard .KeyExpired, now⟩]) ++
        [⟨s.nextId + 1, b, st.to_terminated none, now⟩] := rfl
  unfold eventsView
  rw [h1, List.map_append, List.map_append, List.append_assoc]
  rfl

theorem terminateOne_calls (ok : Nat → Bool) (s : StateStore) (b : String)
    (st : BackendState) (now : Int) :
    (terminateOne ok s b st now).2 = (runAttempts ok b (List.range' 1 10)).2 := rfl

theorem runAttempts_shape (ok : Nat → Bool) (b : String) :
    ∀ ks, ∀ c ∈ (runAttempts ok b ks).2,
      c = RtCall.terminate b true ∨ c = RtCall.backoffWait := by
  intro ks
  induction ks with
  | nil => simp [runAttempts]
  | cons k rest ih =>
    intro c hc
    by_cases hok : ok k
    · rw [show runAttempts ok b (k :: rest) =
        (true, [RtCall.terminate b true]) by simp [runAttempts, hok]] at hc
      simp at hc
      exact Or.inl hc
    · rw [show (runAttempts ok b (k :: rest)).2 =
        RtCall.terminate b true :: RtCall.backoffWait ::
          (runAttempts ok b rest).2 by simp [runAttempts, hok]] at hc
      rcases List.mem_cons.mp hc with rfl | hc
      · exact Or.inl rfl
      rcases List.mem_cons.mp hc with rfl | hc
      · exact Or.inr rfl
      · exact ih c hc

theorem runAttempts_count_le (ok : Nat → Bool) (b : String) :
    ∀ ks, (runAttempts ok b ks).2.count (RtCall.terminate b true) ≤ ks.length := by
  intro ks
  induction ks with
  | nil => simp [runAttempts]
  | cons k rest ih =>
    by_cases hok : ok k
    · rw [show runAttempts ok b (k :: rest) =
        (true, [RtCall.terminate b true]) by simp [runAttempts, hok]]
      simp [List.count_cons]
    · rw [show (runAttempts ok b (k :: rest)).2 =
        RtCall.terminate b true :: RtCall.backoffWait ::
          (runAttempts ok b rest).2 by simp [runAttempts, hok]]
      simp [List.count_cons]
      omega

theorem runAttempts_count_pos (ok : Nat → Bool) (b : String) :
    ∀ ks, ks ≠ [] → 1 ≤ (runAttempts ok b ks).2.count (RtCall.terminate b true) := by
  intro ks hne
  cases ks with
  | nil => exact absurd rfl hne
  | cons k rest =>
    by_cases hok : ok k
    · rw [show runAttempts ok b (k :: rest) =
        (true, [RtCall.terminate b true]) by simp [runAttempts, hok]]
      simp [List.count_cons]
    · rw [show (runAttempts ok b (k :: rest)).2 =
        RtCall.terminate b true :: RtCall.backoffWait ::
          (runAttempts ok b rest).2 by simp [runAttempts, hok]]
      simp [List.count_cons]

theorem runAttempts_count_other (ok : Nat → Bool) (b b' : String) (hne : b' ≠ b) :
    ∀ ks, (runAttempts ok b ks).2.count (RtCall.terminate b' true) = 0 := by
  intro ks
  induction ks with
  | nil => simp [runAttempts]
  | cons k rest ih =>
    by_cases hok : ok k
    · rw [show runAttempts ok b (k :: rest) =
        (true, [RtCall.terminate b true]) by simp [runAttempts, hok]]
      simp [List.count_cons, hne.symm]
    · rw [show (runAttempts ok b (k :: rest)).2 =
        RtCall.terminate b true :: RtCall.backoffWait ::
          (runAttempts ok b rest).2 by simp [runAttempts, hok]]
      simp [List.count_cons, ih, hne.symm]

theorem runAttempts_count_all_fail (b : String) :
    ∀ ks, (runAttempts (fun _ => false) b ks).2.count (RtCall.terminate b true) =
      ks.length := by
  intro ks
  induction ks with
  | nil => simp [runAttempts]
  | cons k rest ih =>
    rw [show (runAttempts (fun _ => false) b (k :: rest)).2 =
      RtCall.terminate b true :: RtCall.backoffWait ::
        (runAttempts (fun _ => false) b rest).2 by simp [runAttempts]]
    simp [List.count_cons, ih]

theorem tpbFold_step (ok : String → Nat → Bool) (now : Int)
    (p : String × BackendState) (L : List (String × BackendState))
    (s0 : StateStore) (c0 : List RtCall) :
    tpbFold ok now (p :: L) (s0, c0) =
      tpbFold ok now L ((terminateOne (ok p.1) s0 p.1 p.2 now).1,
        c0 ++ (terminateOne (ok p.1) s0 p.1 p.2 now).2) := rfl

theorem tpbFold_backend (ok : String → Nat → Bool) (now : Int) :
    ∀ (L : List (String × BackendState)) (s0 : StateStore) (c0 : List RtCall),
      (L.map Prod.fst).Nodup →
      (∀ p ∈ L, p.1 ∈ s0.backend.map Prod.fst) →
      (tpbFold ok now L (s0, c0)).1.backend =
        s0.backend.map (fun kv => (kv.1,
          match L.lookup kv.1 with
          | some stv => stv.to_terminated none
          | none => kv.2)) := by
  intro L
  induction L with
  | nil =>
    intro s0 c0 hnd hks
    show s0.backend = _
    rw [show s0.backend.map (fun kv => (kv.1,
      match ([] : List (String × BackendState)).lookup kv.1 with
      | some stv => stv.to_terminated none
      | none => kv.2)) = s0.backend.map (fun kv => (kv.1, kv.2)) from rfl]
    exact (List.map_id' s0.backend).symm
  | cons p L ih =>
    intro s0 c0 hnd hks
    rw [tpbFold_step]
    have hp1 : p.1 ∈ s0.backend.map Prod.fst := hks p (List.mem_cons_self p L)
    have hnd' : (L.map Prod.fst).Nodup := (List.nodup_cons.mp hnd).2
    have hp1notin : p.1 ∉ L.map Prod.fst := (List.nodup_cons.mp hnd).1
    have hks' : ∀ q ∈ L, q.1 ∈
        (terminateOne (ok p.1) s0 p.1 p.2 now).1.backend.map Prod.fst := by
      intro q hq
      rw [terminateOne_keys (ok p.1) s0 p.1 p.2 now hp1]
      exact hks q (List.mem_cons_of_mem p hq)
    rw [ih _ _ hnd' hks', terminateOne_backend (ok p.1) s0 p.1 p.2 now hp1,
      List.map_map]
    apply List.map_congr_left
    intro kv _
    by_cases hk : kv.1 = p.1
    · have hbeq : (kv.1 == p.1) = true := beq_iff_eq.mpr hk
      have hnone : L.lookup kv.1 = none := by
        apply lookup_eq_none_of_not_mem_keys
        rw [hk]
        exact hp1notin
      have hcons : (p :: L).lookup kv.1 = some p.2 := by
        obtain ⟨a, b⟩ := p
        simp only [List.lookup_cons, hbeq]
      simp [Function.comp, hcons, hnone, hbeq]
    · have hbeq : (kv.1 == p.1) = false := beq_false_of_ne hk
      have hcons : (p :: L).lookup kv.1 = L.lookup kv.1 := by
        obtain ⟨a, b⟩ := p
        simp only [List.lookup_cons, hbeq]
      cases hl : L.lookup kv.1 <;> simp [Function.comp, hcons, hl, hbeq]

theorem tpbFold_events (ok : String → Nat → Bool) (now : Int) :
    ∀ (L : List (String × BackendState)) (s0 : StateStore) (c0 : List RtCall),
      eventsView (tpbFold ok now L (s0, c0)).1 =
        eventsView s0 ++ (L.map (reconcileEvents now)).flatten := by
  intro L
  induction L with
  | nil =>
    intro s0 c0
    simp [tpbFold]
  | cons p L ih =>
    intro s0 c0
    rw [tpbFold_step, ih, terminateOne_events, List.map_cons, List.flatten_cons,
      List.append_assoc]

theorem tpbFold_calls (ok : String → Nat → Bool) (now : Int) :
    ∀ (L : List (String × BackendState)) (s0 : StateStore) (c0 : List RtCall),
      (tpbFold ok now L (s0, c0)).2 =
        c0 ++ (L.map (fun p =>
          (runAttempts (ok p.1) p.1 (List.range' 1 10)).2)).flatten := by
  intro L
  induction L with
  | nil =>
    intro s0 c0
    simp [tpbFold]
  | cons p L ih =>
    intro s0 c0
    rw [tpbFold_step, ih, List.map_cons, List.flatten_cons, terminateOne_calls,
      List.append_assoc]

theorem callsFlatten_count_zero (ok : String → Nat → Bool) (b : String) :
    ∀ L : List (String × BackendState), b ∉ L.map Prod.fst →
      ((L.map (fun p =>
        (runAttempts (ok p.1) p.1 (List.range' 1 10)).2)).flatten).count
          (RtCall.terminate b true) = 0 := by
  intro L
  induction L with
  | nil => simp
  | cons p L ih =>
    intro hb
    have hbp : b ≠ p.1 := by
      intro h
      exact hb (by simp [h])
    have hbL : b ∉ L.map Prod.fst := by
      intro h
      exact hb (by simp [h])
    rw [List.map_cons, List.flatten_cons, List.count_append,
      runAttempts_count_other (ok p.1) p.1 b hbp (List.range' 1 10), ih hbL]

theorem callsFlatten_count (ok : String → Nat → Bool) :
    ∀ (L : List (String × BackendState)) (p : String × BackendState),
      (L.map Prod.fst).Nodup → p ∈ L →
      ((L.map (fun q =>
        (runAttempts (ok q.1) q.1 (List.range' 1 10)).2)).flatten).count
          (RtCall.terminate p.1 true) =
        (runAttempts (ok p.1) p.1 (List.range' 1 10)).2.count
          (RtCall.terminate p.1 true) := by
  intro L
  induction L with
  | nil =>
    intro p _ hp
    simp at hp
  | cons q L ih =>
    intro p hnd hp
    have hndq := List.nodup_cons.mp hnd
    rw [List.map_cons, List.flatten_cons, List.count_append]
    rcases List.mem_cons.mp hp with rfl | hpL
    · rw [callsFlatten_count_zero ok p.1 L hndq.1]
      omega
    · have hpq : p.1 ≠ q.1 := by
        intro h
        apply hndq.1
        rw [← h]
        exact List.mem_map.mpr ⟨p, hpL, rfl⟩
      rw [runAttempts_count_other (ok q.1) q.1 p.1 hpq (List.range' 1 10),
        ih p hndq.2 hpL]
      omega

theorem tpb_active_nodup (s : StateStore)
    (hnd : (s.backend.map Prod.fst).Nodup) :
    (s.active_backends.map Prod.fst).Nodup := by
  have hsub : List.Sublist (s.active_backends.map Prod.fst)
      (s.backend.map Prod.fst) :=
    (List.filter_sublist s.backend).map Prod.fst
  exact List.Nodup.sublist hsub hnd

theorem tpb_active_keys (s : StateStore) :
    ∀ p ∈ s.active_backends, p.1 ∈ s.backend.map Prod.fst := by
  intro p hp
  exact List.mem_map.mpr ⟨p, List.mem_of_mem_filter hp, rfl⟩

theorem tpb_backend (ok : String → Nat → Bool) (s : StateStore) (now : Int)
    (hnd : (s.backend.map Prod.fst).Nodup) :
    (terminate_preexisting_backends ok s now).1.backend =
      s.backend.map (fun kv => (kv.1,
        match s.active_backends.lookup kv.1 with
        | some stv => stv.to_terminated none
        | none => kv.2)) :=
  tpbFold_backend ok now s.active_backends s []
    (tpb_active_nodup s hnd) (tpb_active_keys s)

theorem tpb_row_terminated (s : StateStore) :
    ∀ kv ∈ s.backend,
      (match s.active_backends.lookup kv.1 with
       | some stv => stv.to_terminated none
       | none => kv.2).isTerminated = true := by
  intro kv hkv
  cases hl : s.active_backends.lookup kv.1 with
  | some stv => simp [hl, BackendState.to_terminated, BackendState.isTerminated]
  | none =>
    simp only [hl]
    by_contra hterm
    have hfneq : (!kv.2.isTerminated) = true := by
      rw [Bool.eq_false_iff.mpr hterm]
      rfl
    have hmem : kv ∈ s.active_backends := List.mem_filter.mpr ⟨hkv, hfneq⟩
    have hkey : kv.1 ∈ s.active_backends.map Prod.fst :=
      List.mem_map.mpr ⟨kv, hmem, rfl⟩
    obtain ⟨w, hw⟩ := lookup_isSome_of_mem_keys s.active_backends kv.1 hkey
    rw [hl] at hw
    exact Option.noConfusion hw

theorem tpb_active_nil (ok : String → Nat → Bool) (s : StateStore) (now : Int)
    (hnd : (s.backend.map Prod.fst).Nodup) :
    (terminate_preexisting_backends ok s now).1.active_backends = [] := by
  show (terminate_preexisting_backends ok s now).1.backend.filter
    (fun kv => !kv.2.isTerminated) = []
  rw [tpb_backend ok s now hnd]
  apply List.filter_eq_nil_iff.mpr
  intro a ha
  obtain ⟨kv, hkv, rfl⟩ := List.mem_map.mp ha
  have := tpb_row_terminated s kv hkv
  simp [this]

theorem tpb_lookup (ok : String → Nat → Bool) (s : StateStore) (now : Int)
    (hnd : (s.backend.map Prod.fst).Nodup) :
    ∀ p ∈ s.active_backends,
      (terminate_preexisting_backends ok s now).1.backend.lookup p.1 =
        some (p.2.to_terminated none) := by
  intro p hp
  obtain ⟨w, hw⟩ := lookup_isSome_of_mem_keys s.backend p.1 (tpb_active_keys s p hp)
  have hlk : (terminate_preexisting_backends ok s now).1.backend.lookup p.1 =
      (s.backend.lookup p.1).map (fun v =>
        match s.active_backends.lookup p.1 with
        | some stv => stv.to_terminated none
        | none => v) := by
    rw [tpb_backend ok s now hnd]
    exact lookup_map_keyfn (fun a v =>
      match s.active_backends.lookup a with
      | some stv => stv.to_terminated none
      | none => v) s.backend p.1
  rw [hlk, hw,
    lookup_eq_some_of_mem_nodup s.active_backends (tpb_active_nodup s hnd) p.1 p.2 hp]
  rfl

theorem tpb_count (ok : String → Nat → Bool) (s : StateStore) (now : Int)
    (hnd : (s.backend.map Prod.fst).Nodup) :
    ∀ p ∈ s.active_backends,
      (terminate_preexisting_backends ok s now).2.count (RtCall.terminate p.1 true) =
        (runAttempts (ok p.1) p.1 (List.range' 1 10)).2.count
          (RtCall.terminate p.1 true) := by
  intro p hp
  have hcalls : (terminate_preexisting_backends ok s now).2 =
      (s.active_backends.map (fun q =>
        (runAttempts (ok q.1) q.1 (List.range' 1 10)).2)).flatten := by
    have := tpbFold_calls ok now s.active_backends s []
    simpa using this
  rw [hcalls]
  exact callsFlatten_count ok s.active_backends p (tpb_active_nodup s hnd) hp

/-- **C3**: starting a drone with a state store holding `N` backends in
a non-`Terminated` state synthesizes a hard `KeyExpired` terminating
event and then a `Terminated` (no exit code) event for each, calls
`runtime.terminate(id, hard = true)` between 1 and 10 times per backend
(every runtime call in the reconciliation is a hard terminate), and
leaves every previously active backend `Terminated`, so that
`active_backends()` is empty and the store holds the `N` previously
active backends as `Terminated` rows in addition to the already
terminated ones. -/
theorem drone_restart_reconciliation (ok : String → Nat → Bool) (s : StateStore)
    (now : Int) (hnd : (s.backend.map Prod.fst).Nodup) :
    (terminate_preexisting_backends ok s now).1.active_backends = [] ∧
    (∀ p ∈ s.active_backends,
      (terminate_preexisting_backends ok s now).1.backend.lookup p.1 =
        some (p.2.to_terminated none)) ∧
    eventsView (terminate_preexisting_backends ok s now).1 =
      eventsView s ++ (s.active_backends.map (reconcileEvents now)).flatten ∧
    (∀ c ∈ (terminate_preexisting_backends ok s now).2,
      c = RtCall.backoffWait ∨
        ∃ p ∈ s.active_backends, c = RtCall.terminate p.1 true) ∧
    (∀ p ∈ s.active_backends,
      1 ≤ (terminate_preexisting_backends ok s now).2.count
            (RtCall.terminate p.1 true) ∧
      (terminate_preexisting_backends ok s now).2.count
        (RtCall.terminate p.1 true) ≤ 10) ∧
    (terminate_preexisting_backends ok s now).1.backend.length =
      s.backend.length ∧
    ((terminate_preexisting_backends ok s now).1.backend.filter
        (fun kv => kv.2.isTerminated)).length =
      (s.backend.filter (fun kv => kv.2.isTerminated)).length +
        s.active_backends.length := by
  refine ⟨tpb_active_nil ok s now hnd, tpb_lookup ok s now hnd,
    tpbFold_events ok now s.active_backends s [], ?_, ?_, ?_, ?_⟩
  · intro c hc
    rw [show (terminate_preexisting_backends ok s now).2 =
      [] ++ (s.active_backends.map (fun q =>
        (runAttempts (ok q.1) q.1 (List.range' 1 10)).2)).flatten from
        tpbFold_calls ok now s.active_backends s []] at hc
    rw [List.nil_append] at hc
    obtain ⟨grp, hgrp, hcg⟩ := List.mem_flatten.mp hc
    obtain ⟨q, hq, rfl⟩ := List.mem_map.mp hgrp
    rcases runAttempts_shape (ok q.1) q.1 (List.range' 1 10) c hcg with h | h
    · exact Or.inr ⟨q, hq, h⟩
    · exact Or.inl h
  · intro p hp
    rw [tpb_count ok s now hnd p hp]
    constructor
    · exact runAttempts_count_pos (ok p.1) p.1 (List.range' 1 10) (by decide)
    · have hle := runAttempts_count_le (ok p.1) p.1 (List.range' 1 10)
      have hlen : (List.range' 1 10).length = 10 := rfl
      rw [hlen] at hle
      exact hle
  · rw [tpb_backend ok s now hnd, List.length_map]
  · have hall : (terminate_preexisting_backends ok s now).1.backend.filter
        (fun kv => kv.2.isTerminated) =
        (terminate_preexisting_backends ok s now).1.backend := by
      apply List.filter_eq_self.mpr
      intro a ha
      rw [tpb_backend ok s now hnd] at ha
      obtain ⟨kv, hkv, rfl⟩ := List.mem_map.mp ha
      exact tpb_row_terminated s kv hkv
    rw [hall, tpb_backend ok s now hnd, List.length_map]
    have hpart := length_filter_partition (fun kv => kv.2.isTerminated) s.backend
    have hactlen : s.active_backends.length =
        (s.backend.filter (fun kv => !kv.2.isTerminated)).length := rfl
    omega

/-- Witness for C3: the store `exStore` (one `Ready` backend `b1`, one
already-terminated `b2`) reconciled with an always-succeeding runtime
ends with no active backend, `b1` recorded as `Terminated` with no exit
code, and at least one hard terminate call for `b1`. -/
theorem drone_restart_reconciliation_witness :
    (terminate_preexisting_backends (fun _ _ => true) exStore 7).1.active_backends
        = [] ∧
    (terminate_preexisting_backends (fun _ _ => true) exStore 7).1.backend.lookup
        "b1" = some ((BackendState.Ready "1.2.3.4:80").to_terminated none) ∧
    1 ≤ (terminate_preexisting_backends (fun _ _ => true) exStore 7).2.count
          (RtCall.terminate "b1" true) := by
  have h := drone_restart_reconciliation (fun _ _ => true) exStore 7 (by decide)
  have hmem : (("b1" : String), BackendState.Ready "1.2.3.4:80") ∈
      exStore.active_backends := by decide
  exact ⟨h.1, h.2.1 _ hmem, (h.2.2.2.2.1 _ hmem).1⟩

/-- **C10**: if every one of the 10 hard-terminate attempts for a
preexisting backend fails, the executor still writes the
`Terminated` (no exit code) event and records the backend as
`Terminated`: exactly 10 hard terminate calls are made for it, its
`to_terminated none` event is in the store, and startup completes with
no active backend. -/
theorem reconcile_failure_still_marks_terminated (s : StateStore) (now : Int)
    (b : String) (st : BackendState)
    (hnd : (s.backend.map Prod.fst).Nodup)
    (hmem : (b, st) ∈ s.active_backends) :
    (terminate_preexisting_backends (fun _ _ => false) s now).1.backend.lookup b =
      some (st.to_terminated none) ∧
    (terminate_preexisting_backends (fun _ _ => false) s now).2.count
      (RtCall.terminate b true) = 10 ∧
    (b, st.to_terminated none, now) ∈
      eventsView (terminate_preexisting_backends (fun _ _ => false) s now).1 ∧
    (terminate_preexisting_backends (fun _ _ => false) s now).1.active_backends
      = [] := by
  refine ⟨tpb_lookup (fun _ _ => false) s now hnd (b, st) hmem, ?_, ?_,
    tpb_active_nil (fun _ _ => false) s now hnd⟩
  · rw [tpb_count (fun _ _ => false) s now hnd (b, st) hmem]
    rw [runAttempts_count_all_fail b (List.range' 1 10)]
    rfl
  · show (b, st.to_terminated none, now) ∈
      eventsView (tpbFold (fun _ _ => false) now s.active_backends (s, [])).1
    rw [tpbFold_events (fun _ _ => false) now s.active_backends s []]
    apply List.mem_append.mpr
    refine Or.inr (List.mem_flatten.mpr ⟨reconcileEvents now (b, st), ?_, ?_⟩)
    · exact List.mem_map.mpr ⟨(b, st), hmem, rfl⟩
    · simp [reconcileEvents]

/-- Witness for C10: reconciling `exStore` with a runtime whose
terminate always fails still records `b1` as `Terminated` after exactly
10 hard terminate attempts. -/
theorem reconcile_failure_still_marks_terminated_witness :
    (terminate_preexisting_backends (fun _ _ => false) exStore 7).1.backend.lookup
        "b1" = some ((BackendState.Ready "1.2.3.4:80").to_terminated none) ∧
    (terminate_preexisting_backends (fun _ _ => false) exStore 7).2.count
      (RtCall.terminate "b1" true) = 10 := by
  have h := reconcile_failure_still_marks_terminated exStore 7 "b1"
    (BackendState.Ready "1.2.3.4:80") (by decide) (by decide)
  exact ⟨h.1, h.2.1⟩

end Plane
